import Mathlib

/-
Verification of the configlette configuration loader.

This file gives a shallow embedding, in Lean 4, of the resolution engine of
the configlette library (source: src/index.ts of the repository): the
schema-key case transform, the read-tracking Environment wrapper, the
`.env` interpolation resolver (escape handling, braced and bare token
scans, lookup and missing policies, memoisation and cycle detection), and
the `load` orchestrator with its ephemeral / stored / derived passes.

Modelling conventions:
- JavaScript strings are Lean `String` / `List Char`; the embedding covers
  the ASCII behaviour of `toUpperCase` via the core `Char.toUpper`, which
  is exactly the ASCII case map used by the source's key transform.
- `Record<string, string>` maps are association lists `List (String × String)`
  looked up with `List.lookup`; a key bound to `undefined` is modelled as
  an absent key (the source only ever tests `== null` / `?.`).
- Thrown `ConfigError` / `EnvironmentError` exceptions are `Except String`
  results carrying the error message.
- The mutable memo map and in-progress stack of the interpolation resolver
  are threaded explicitly as an `ExpandSt` record; the mutual recursion of
  `resolveVar` / `resolveKey` is made structural with a fuel parameter that
  `expandEnvMap` instantiates with an amount sufficient for every actual
  run (each recursive hop either terminates or pushes a new file key, so
  the nesting depth is bounded by the number of file keys).
- File reading (`readEnvFile`) performs IO and is out of scope; `load`
  takes the parsed raw file map as an argument.
-/

namespace Configlette

/-! ## Name resolution: `camelToScreamingSnake` (src lines 351-359) -/

/-- One step of the `/([A-Z])/g → '_$1'` replacement of the source:
insert an underscore before every ASCII upper-case letter. -/
def insertUnderscores : List Char → List Char
  | [] => []
  | c :: rest =>
    if 65 ≤ c.toNat ∧ c.toNat ≤ 90 then '_' :: c :: insertUnderscores rest
    else c :: insertUnderscores rest

/-- The `replace(/^_/, '')` step of the source: drop one leading underscore. -/
def stripLeadingUnderscore : List Char → List Char
  | '_' :: rest => rest
  | l => l

/-- JavaScript `toUpperCase` on the ASCII fragment, as used by the source;
`Char.toUpper` is exactly the ASCII case map. -/
def toUpperStr (l : List Char) : List Char := l.map Char.toUpper

/-- `camelToScreamingSnake` from the source: a key that equals its own
upper-casing is returned unchanged, otherwise an underscore is inserted
before each upper-case letter, one leading underscore is stripped, and the
result is upper-cased. -/
def camelToScreamingSnake (s : String) : String :=
  if s.data = toUpperStr s.data then s
  else String.mk (toUpperStr (stripLeadingUnderscore (insertUnderscores s.data)))

/-! ## The `Environment` read-tracking wrapper (src lines 31-65) -/

/-- State of one `Environment` instance: the underlying string map and the
`_hasBeenRead` set (modelled as a list, only membership matters). -/
structure EnvState where
  environment : List (String × String)
  hasBeenRead : List String
deriving DecidableEq, Repr

/-- JavaScript `obj[key] = value` on a string-keyed record: overwrite in
place when the key is present, append otherwise. -/
def setAssoc (k v : String) : List (String × String) → List (String × String)
  | [] => [(k, v)]
  | (k', v') :: rest => if k' = k then (k, v) :: rest else (k', v') :: setAssoc k v rest

/-- `Environment.get`: marks the key as read and returns the stored value. -/
def envGet (st : EnvState) (k : String) : Option String × EnvState :=
  (st.environment.lookup k, { st with hasBeenRead := k :: st.hasBeenRead })

/-- `Environment.set`: refuses keys already read, otherwise writes. -/
def envSet (st : EnvState) (k v : String) : Except String EnvState :=
  if k ∈ st.hasBeenRead then
    .error ("Cannot set environment['" ++ k ++ "'], but the value has already been read.")
  else .ok { st with environment := setAssoc k v st.environment }

/-- `Environment.delete`: refuses keys already read, otherwise removes. -/
def envDelete (st : EnvState) (k : String) : Except String EnvState :=
  if k ∈ st.hasBeenRead then
    .error ("Cannot delete environment['" ++ k ++ "'], but the value has already been read.")
  else .ok { st with environment := st.environment.filter (fun p => p.1 != k) }

/-- `Environment.has`: pure key test, does not touch the read set. -/
def envHas (st : EnvState) (k : String) : Bool := (st.environment.lookup k).isSome

/-- One public call on an `Environment` instance. -/
inductive EnvOp where
  | get : String → EnvOp
  | set : String → String → EnvOp
  | del : String → EnvOp
  | has : String → EnvOp
deriving DecidableEq, Repr

/-- Effect of one call on the instance state; a refused `set`/`delete`
throws and leaves the state unchanged. -/
def applyOp (st : EnvState) (op : EnvOp) : EnvState :=
  match op with
  | .get k => (envGet st k).2
  | .set k v => match envSet st k v with | .ok st' => st' | .error _ => st
  | .del k => match envDelete st k with | .ok st' => st' | .error _ => st
  | .has _ => st

/-- State of an `Environment` instance after a sequence of calls. -/
def runOps (st : EnvState) (ops : List EnvOp) : EnvState := ops.foldl applyOp st

/-! ## Interpolation resolver (src lines 194-200 and 361-436) -/

/-- The `missing` interpolation policy (`'error' | 'leave' | 'empty'`). -/
inductive MissingPolicy where
  | error
  | leave
  | empty
deriving DecidableEq, Repr

/-- The `lookup` interpolation policy
(`'env-first' | 'file-first' | 'file-only' | 'env-only'`). -/
inductive LookupPolicy where
  | envFirst
  | fileFirst
  | fileOnly
  | envOnly
deriving DecidableEq, Repr

/-- Fully-defaulted interpolation options as passed to `expandEnvMap`. -/
structure InterpOpts where
  missing : MissingPolicy
  lookup : LookupPolicy
deriving DecidableEq, Repr

/-- The per-`expandEnvMap` mutable state: the `resolved` memo map and the
`resolving` in-progress stack. -/
structure ExpandSt where
  resolved : List (String × String)
  resolving : List String
deriving DecidableEq, Repr

/-- Type of the `resolve` callback handed to `interpolateString`: a name and
the original token text, threading the resolver state, possibly throwing. -/
abbrev Res := String → String → ExpandSt → Except String (String × ExpandSt)

/-- The `'\u0000'` sentinel used for escaped dollars. -/
def ESC : Char := Char.ofNat 0

/-- First character class of the `[A-Za-z_][A-Za-z0-9_]*` identifier. -/
def isIdentStart (c : Char) : Bool :=
  (65 ≤ c.toNat && c.toNat ≤ 90) || (97 ≤ c.toNat && c.toNat ≤ 122) || c = '_'

/-- Continuation character class of the identifier. -/
def isIdentCont (c : Char) : Bool :=
  isIdentStart c || (48 ≤ c.toNat && c.toNat ≤ 57)

/-- The `s.replace(/\\\$/g, ESC)` pass: every `\$` becomes the sentinel. -/
def escapeDollars : List Char → List Char
  | '\\' :: '$' :: rest => ESC :: escapeDollars rest
  | c :: rest => c :: escapeDollars rest
  | [] => []

/-- The final `text.replace(new RegExp(ESC, 'g'), '$')` pass. -/
def restoreEsc (l : List Char) : List Char :=
  l.map (fun c => if c = ESC then '$' else c)

/-- Greedy match of `[A-Za-z_][A-Za-z0-9_]*` at the head of the input,
returning the identifier and the rest. -/
def matchIdent : List Char → Option (String × List Char)
  | c :: cs =>
    if isIdentStart c then
      some (String.mk (c :: cs.takeWhile isIdentCont), cs.dropWhile isIdentCont)
    else none
  | [] => none

/-- Match of `{NAME}` (the part of a braced token after the `$`). -/
def matchBraced : List Char → Option (String × List Char)
  | '{' :: rest =>
    match matchIdent rest with
    | some (name, '}' :: rest2) => some (name, rest2)
    | _ => none
  | _ => none

/-- The `\$\{([A-Za-z_][A-Za-z0-9_]*)\}` replacement scan: left to right,
each match replaced by the callback's result, which is never rescanned by
this pass. The fuel is instantiated with `length + 1`, which always
suffices because every step consumes at least one input character. -/
def scanBraced (res : Res) : Nat → List Char → ExpandSt → Except String (List Char × ExpandSt)
  | 0, _, _ => .error "configlette: fuel exhausted"
  | _ + 1, [], st => .ok ([], st)
  | fuel + 1, c :: rest, st =>
    if c = '$' then
      match matchBraced rest with
      | some (name, rem) =>
        match res name ("$\x7b" ++ name ++ "\x7d") st with
        | .error e => .error e
        | .ok (v, st') =>
          match scanBraced res fuel rem st' with
          | .error e => .error e
          | .ok (tail, st'') => .ok (v.data ++ tail, st'')
      | none =>
        match scanBraced res fuel rest st with
        | .error e => .error e
        | .ok (tail, st') => .ok (c :: tail, st')
    else
      match scanBraced res fuel rest st with
      | .error e => .error e
      | .ok (tail, st') => .ok (c :: tail, st')

/-- The `\$([A-Za-z_][A-Za-z0-9_]*)` replacement scan, same conventions. -/
def scanBare (res : Res) : Nat → List Char → ExpandSt → Except String (List Char × ExpandSt)
  | 0, _, _ => .error "configlette: fuel exhausted"
  | _ + 1, [], st => .ok ([], st)
  | fuel + 1, c :: rest, st =>
    if c = '$' then
      match matchIdent rest with
      | some (name, rem) =>
        match res name ("$" ++ name) st with
        | .error e => .error e
        | .ok (v, st') =>
          match scanBare res fuel rem st' with
          | .error e => .error e
          | .ok (tail, st'') => .ok (v.data ++ tail, st'')
      | none =>
        match scanBare res fuel rest st with
        | .error e => .error e
        | .ok (tail, st') => .ok (c :: tail, st')
    else
      match scanBare res fuel rest st with
      | .error e => .error e
      | .ok (tail, st') => .ok (c :: tail, st')

/-- `interpolateString` from the source: escape `\$`, expand all braced
tokens, then all bare tokens (over the braced pass's output), finally
restore sentinels to literal `$`. -/
def interpolateString (s : String) (res : Res) (st : ExpandSt) :
    Except String (String × ExpandSt) :=
  let t1 := escapeDollars s.data
  match scanBraced res (t1.length + 1) t1 st with
  | .error e => .error e
  | .ok (t2, st2) =>
    match scanBare res (t2.length + 1) t2 st2 with
    | .error e => .error e
    | .ok (t3, st3) => .ok (String.mk (restoreEsc t3), st3)

/-- `handleMissing` from the source. -/
def handleMissing (name token : String) (policy : MissingPolicy) (st : ExpandSt) :
    Except String (String × ExpandSt) :=
  match policy with
  | .leave => .ok (token, st)
  | .empty => .ok ("", st)
  | .error => .error (".env reference '" ++ name ++ "' is not defined in env or file")

/-- `Object.hasOwn(fileValues, k)`. -/
def containsKey (fv : List (String × String)) (k : String) : Bool :=
  (fv.lookup k).isSome

/-- `Array.prototype.indexOf` on a list of strings. -/
def idxOfStr (k : String) : List String → Nat
  | [] => 0
  | x :: rest => if x = k then 0 else idxOfStr k rest + 1

/-- The cycle message path: `resolving.slice(indexOf key).concat(key)`
joined with `" -> "`. -/
def cyclePath (resolving : List String) (key : String) : String :=
  String.intercalate " -> " (resolving.drop (idxOfStr key resolving) ++ [key])

/-- A pending resolver request: `resolveVar name token` or `resolveKey key`. -/
inductive InterpReq where
  | var : String → String → InterpReq
  | key : String → InterpReq
deriving DecidableEq, Repr

/-- The mutually recursive `resolveVar` / `resolveKey` pair of the source,
combined into one function on a request tag and made structural by fuel.
`resolveVar` consults first the environment and/or the file according to
the lookup policy; `resolveKey` memoises, detects cycles via the
`resolving` stack, and expands the raw file value recursively. -/
def interpGo (fv env : List (String × String)) (opts : InterpOpts) :
    Nat → InterpReq → ExpandSt → Except String (String × ExpandSt)
  | 0, _, _ => .error "configlette: fuel exhausted"
  | fuel + 1, .var name token, st =>
    let envVal := env.lookup name
    let fileValExists := containsKey fv name
    match opts.lookup with
    | .envOnly =>
      match envVal with
      | some v => .ok (v, st)
      | none => handleMissing name token opts.missing st
    | .fileOnly =>
      if fileValExists then interpGo fv env opts fuel (.key name) st
      else handleMissing name token opts.missing st
    | .fileFirst =>
      if fileValExists then interpGo fv env opts fuel (.key name) st
      else
        match envVal with
        | some v => .ok (v, st)
        | none => handleMissing name token opts.missing st
    | .envFirst =>
      match envVal with
      | some v => .ok (v, st)
      | none =>
        if fileValExists then interpGo fv env opts fuel (.key name) st
        else handleMissing name token opts.missing st
  | fuel + 1, .key key, st =>
    match st.resolved.lookup key with
    | some v => .ok (v, st)
    | none =>
      if containsKey fv key = false then
        interpGo fv env opts fuel (.var key ("$" ++ key)) st
      else if st.resolving.contains key then
        .error ("Circular reference detected in .env: " ++ cyclePath st.resolving key)
      else
        match interpolateString ((fv.lookup key).getD "")
            (fun n t s => interpGo fv env opts fuel (.var n t) s)
            { st with resolving := st.resolving ++ [key] } with
        | .error e => .error e
        | .ok (out, st') =>
          .ok (out, { resolved := setAssoc key out st'.resolved,
                      resolving := st'.resolving.dropLast })

/-- `resolveVar` of the source (fuel-indexed). -/
def resolveVar (fv env : List (String × String)) (opts : InterpOpts) (fuel : Nat)
    (name token : String) (st : ExpandSt) : Except String (String × ExpandSt) :=
  interpGo fv env opts fuel (.var name token) st

/-- `resolveKey` of the source (fuel-indexed). -/
def resolveKey (fv env : List (String × String)) (opts : InterpOpts) (fuel : Nat)
    (key : String) (st : ExpandSt) : Except String (String × ExpandSt) :=
  interpGo fv env opts fuel (.key key) st

/-- Fuel sufficient for any run of `expandEnvMap`: nesting only deepens by
pushing a distinct file key onto the `resolving` stack (with one `var` hop
in between), so `2 * number-of-keys + 4` covers every chain. -/
def expandFuel (fv : List (String × String)) : Nat := 2 * fv.length + 4

/-- The `for (const k of Object.keys(fileValues))` loop of `expandEnvMap`. -/
def expandEnvMapGo (fv env : List (String × String)) (opts : InterpOpts) (fuel : Nat) :
    List String → ExpandSt → Except String (List (String × String))
  | [], _ => .ok []
  | k :: ks, st =>
    match resolveKey fv env opts fuel k st with
    | .error e => .error e
    | .ok (v, st') =>
      match expandEnvMapGo fv env opts fuel ks st' with
      | .error e => .error e
      | .ok rest => .ok ((k, v) :: rest)

/-- `expandEnvMap` from the source: resolve every file key in file order,
starting from an empty memo and an empty in-progress stack. -/
def expandEnvMap (fv env : List (String × String)) (opts : InterpOpts) :
    Except String (List (String × String)) :=
  expandEnvMapGo fv env opts (expandFuel fv) (fv.map Prod.fst) ⟨[], []⟩

/-! ## Fields, schema entries and the load orchestrator (src lines 69-318) -/

/-- Runtime configuration values produced by coercers and derived
computations; `undef` is JavaScript `undefined` (the "absent" result). -/
inductive Value where
  | vStr : String → Value
  | vNum : Int → Value
  | vBool : Bool → Value
  | undef : Value
deriving DecidableEq, Repr

/-- `Field` from the source: a coercer, an optional default
(`none` = SENTINEL), the optionality flag and the `fromEnv` override. -/
structure Field where
  coerce : String → Except String Value
  defaultValue : Option Value := none
  isOptional : Bool := false
  envName : Option String := none

/-- `custom` builder from the source. -/
def custom (c : String → Except String Value) : Field := { coerce := c }

/-- `Field.default` modifier: sets the default and clears optionality. -/
def Field.default (f : Field) (v : Value) : Field :=
  { coerce := f.coerce, defaultValue := some v, isOptional := false, envName := f.envName }

/-- `Field.optional` modifier: clears the default, sets optionality. -/
def Field.optional (f : Field) : Field :=
  { coerce := f.coerce, defaultValue := none, isOptional := true, envName := f.envName }

/-- `Field.fromEnv` modifier: overrides the external lookup name. -/
def Field.fromEnv (f : Field) (n : String) : Field := { f with envName := some n }

/-- The `string()` field builder. -/
def stringField : Field := custom (fun s => .ok (.vStr s))

/-- One schema entry: a stored `Field`, an `EphemeralField` wrapper, or a
`DerivedField` with its `compute` function over the resolved record. -/
inductive SchemaEntry where
  | field : Field → SchemaEntry
  | ephemeral : Field → SchemaEntry
  | derived : (List (String × Value) → Except String Value) → SchemaEntry

/-- `readField` from the source (the closure inside `load`): compute the
external key, look up the environment first and the file map second, then
apply the missing-value cascade or the coercer. -/
def readField (pfx : String) (env fileValues : List (String × String))
    (skipMissing : Bool) (key : String) (f : Field) : Except String Value :=
  let envKey := pfx ++ (f.envName.getD (camelToScreamingSnake key))
  let raw :=
    match env.lookup envKey with
    | some v => some v
    | none => fileValues.lookup envKey
  match raw with
  | none =>
    match f.defaultValue with
    | some d => .ok d
    | none =>
      if f.isOptional then .ok .undef
      else if skipMissing then .ok .undef
      else .error ("Config '" ++ envKey ++ "' is missing and has no default.")
  | some r =>
    match f.coerce r with
    | .ok v => .ok v
    | .error m => .error ("Config '" ++ envKey ++ "' has value '" ++ r ++ "'. " ++ m)

/-- Pass 1 of `load`: read every `EphemeralField` entry in schema order. -/
def loadEphemerals (pfx : String) (env fv : List (String × String)) (skip : Bool) :
    List (String × SchemaEntry) → Except String (List (String × Value))
  | [] => .ok []
  | (k, .ephemeral f) :: rest =>
    match readField pfx env fv skip k f with
    | .error e => .error e
    | .ok v =>
      match loadEphemerals pfx env fv skip rest with
      | .error e => .error e
      | .ok tail => .ok ((k, v) :: tail)
  | _ :: rest => loadEphemerals pfx env fv skip rest

/-- Pass 2 of `load`: read every stored `Field` entry in schema order. -/
def loadRegulars (pfx : String) (env fv : List (String × String)) (skip : Bool) :
    List (String × SchemaEntry) → Except String (List (String × Value))
  | [] => .ok []
  | (k, .field f) :: rest =>
    match readField pfx env fv skip k f with
    | .error e => .error e
    | .ok v =>
      match loadRegulars pfx env fv skip rest with
      | .error e => .error e
      | .ok tail => .ok ((k, v) :: tail)
  | _ :: rest => loadRegulars pfx env fv skip rest

/-- The `deriveds` list collected during pass 2, in schema order. -/
def derivedEntries :
    List (String × SchemaEntry) → List (String × (List (String × Value) → Except String Value))
  | [] => []
  | (k, .derived d) :: rest => (k, d) :: derivedEntries rest
  | _ :: rest => derivedEntries rest

/-- Pass 3 of `load`: compute every derived entry against the frozen
context, wrapping any failure. -/
def loadDeriveds (ctx : List (String × Value)) :
    List (String × (List (String × Value) → Except String Value)) →
      Except String (List (String × Value))
  | [] => .ok []
  | (k, d) :: rest =>
    match d ctx with
    | .error m => .error ("Derived config '" ++ k ++ "' failed to compute. " ++ m)
    | .ok v =>
      match loadDeriveds ctx rest with
      | .error e => .error e
      | .ok tail => .ok ((k, v) :: tail)

/-- The three passes of `load` once the sources are fixed: ephemerals,
stored fields, then deriveds over the context `{...regulars, ...ephemerals}`;
the output record is the stored values followed by the derived values. -/
def loadCore (pfx : String) (env fileValues : List (String × String)) (skip : Bool)
    (schema : List (String × SchemaEntry)) : Except String (List (String × Value)) :=
  match loadEphemerals pfx env fileValues skip schema with
  | .error e => .error e
  | .ok ephs =>
    match loadRegulars pfx env fileValues skip schema with
    | .error e => .error e
    | .ok regs =>
      match loadDeriveds (regs ++ ephs) (derivedEntries schema) with
      | .error e => .error e
      | .ok ders => .ok (regs ++ ders)

/-- The `interpolate` load option: absent, a boolean, or an options object
with optional `missing` / `lookup` members. -/
inductive InterpolateOpt where
  | notSet
  | bool : Bool → InterpolateOpt
  | opts : Option MissingPolicy → Option LookupPolicy → InterpolateOpt

/-- `interpolateEnabled` from the source: a boolean is taken as given, any
object enables interpolation, absence disables it. -/
def interpEnabled : InterpolateOpt → Bool
  | .notSet => false
  | .bool b => b
  | .opts _ _ => true

/-- `missingPolicy` from the source, defaulting to `'error'`. -/
def interpMissingOf : InterpolateOpt → MissingPolicy
  | .opts (some m) _ => m
  | _ => .error

/-- `lookupPolicy` from the source, defaulting to `'env-first'`. -/
def interpLookupOf : InterpolateOpt → LookupPolicy
  | .opts _ (some l) => l
  | _ => .envFirst

/-- The `load` options this embedding models: `pfx` is the source's
`envPrefix`, `env` the explicit raw environment map, plus `interpolate`
and `skipMissing`. (`envFile`/`encoding` select the raw file map, which
`load` below takes directly as an argument since file reading is IO.) -/
structure LoadOptions where
  pfx : String := ""
  env : List (String × String) := []
  interpolate : InterpolateOpt := .notSet
  skipMissing : Bool := false

/-- `load` from the source, parameterised by the parsed raw file map:
optionally expand the file map through the interpolation resolver, then
run the three passes. -/
def load (schema : List (String × SchemaEntry)) (rawFileValues : List (String × String))
    (o : LoadOptions) : Except String (List (String × Value)) :=
  let fileStage :=
    if interpEnabled o.interpolate then
      expandEnvMap rawFileValues o.env
        ⟨interpMissingOf o.interpolate, interpLookupOf o.interpolate⟩
    else .ok rawFileValues
  match fileStage with
  | .error e => .error e
  | .ok fileValues => loadCore o.pfx o.env fileValues o.skipMissing schema

/-! ## Specification-side helper predicates and projections -/

/-- Does the character list contain a `\$` escape sequence? -/
def hasEscSeq : List Char → Bool
  | [] => false
  | [_] => false
  | c :: d :: rest => (c == '\\' && d == '$') || hasEscSeq (d :: rest)

/-- Does the list contain a position where the braced-token scan would
match (a `$` followed by `{NAME}`)? -/
def hasBracedTok : List Char → Bool
  | [] => false
  | c :: rest => (c == '$' && (matchBraced rest).isSome) || hasBracedTok rest

/-- Does the list contain a position where the bare-token scan would match
(a `$` followed by an identifier)? -/
def hasBareTok : List Char → Bool
  | [] => false
  | c :: rest => (c == '$' && (matchIdent rest).isSome) || hasBareTok rest

/-- The first read error among the ephemeral entries, in schema order. -/
def firstEphError (pfx : String) (env fv : List (String × String)) (skip : Bool) :
    List (String × SchemaEntry) → Option String
  | [] => none
  | (k, .ephemeral f) :: rest =>
    match readField pfx env fv skip k f with
    | .error e => some e
    | .ok _ => firstEphError pfx env fv skip rest
  | _ :: rest => firstEphError pfx env fv skip rest

/-- The first read error among the stored `Field` entries, in schema order. -/
def firstFieldError (pfx : String) (env fv : List (String × String)) (skip : Bool) :
    List (String × SchemaEntry) → Option String
  | [] => none
  | (k, .field f) :: rest =>
    match readField pfx env fv skip k f with
    | .error e => some e
    | .ok _ => firstFieldError pfx env fv skip rest
  | _ :: rest => firstFieldError pfx env fv skip rest

/-- The first read error of a whole load, in pass order: all ephemeral
entries (schema order) before all stored entries (schema order). -/
def firstReadError (pfx : String) (env fv : List (String × String)) (skip : Bool)
    (schema : List (String × SchemaEntry)) : Option String :=
  match firstEphError pfx env fv skip schema with
  | some e => some e
  | none => firstFieldError pfx env fv skip schema

/-- The first derived-computation failure over the frozen context, in
schema order, with the source's `ConfigError` wrapping. -/
def firstDerivedError (ctx : List (String × Value)) :
    List (String × (List (String × Value) → Except String Value)) → Option String
  | [] => none
  | (k, d) :: rest =>
    match d ctx with
    | .error m => some ("Derived config '" ++ k ++ "' failed to compute. " ++ m)
    | .ok _ => firstDerivedError ctx rest

/-- The file-map stage of `load` under the given options: the raw file map
itself, run through the interpolation resolver when interpolation is
enabled. `load` is definitionally the match of this stage followed by
`loadCore`. -/
def loadFileStage (rawFv : List (String × String)) (o : LoadOptions) :
    Except String (List (String × String)) :=
  if interpEnabled o.interpolate then
    expandEnvMap rawFv o.env
      ⟨interpMissingOf o.interpolate, interpLookupOf o.interpolate⟩
  else .ok rawFv

/-- Keys of the stored `Field` entries, in schema order. -/
def fieldKeys : List (String × SchemaEntry) → List String
  | [] => []
  | (k, .field _) :: rest => k :: fieldKeys rest
  | _ :: rest => fieldKeys rest

/-- Keys of the ephemeral entries, in schema order. -/
def ephemeralKeys : List (String × SchemaEntry) → List String
  | [] => []
  | (k, .ephemeral _) :: rest => k :: ephemeralKeys rest
  | _ :: rest => ephemeralKeys rest

/-- Keys of the derived entries, in schema order. -/
def derivedKeys : List (String × SchemaEntry) → List String
  | [] => []
  | (k, .derived _) :: rest => k :: derivedKeys rest
  | _ :: rest => derivedKeys rest

/-! ## Helper lemmas: the ASCII upper-casing map -/

theorem char_toNat_ofNat_valid (n : Nat) (h : n.isValidChar) :
    (Char.ofNat n).toNat = n := by
  simp only [Char.ofNat, dif_pos h, Char.ofNatAux, Char.toNat, UInt32.toNat]
  simp

theorem char_toUpper_idem (c : Char) : c.toUpper.toUpper = c.toUpper := by
  show Char.toUpper (Char.toUpper c) = Char.toUpper c
  unfold Char.toUpper
  by_cases h : 97 ≤ c.toNat ∧ c.toNat ≤ 122
  · have hv : (c.toNat - 32).isValidChar := Or.inl (by omega)
    have ht : (Char.ofNat (c.toNat - 32)).toNat = c.toNat - 32 :=
      char_toNat_ofNat_valid _ hv
    simp only [if_pos h, ht]
    rw [if_neg]
    omega
  · simp only [if_neg h]

theorem toUpperStr_idem (l : List Char) : toUpperStr (toUpperStr l) = toUpperStr l := by
  unfold toUpperStr
  rw [List.map_map]
  exact List.map_congr_left (fun c _ => char_toUpper_idem c)

/-! ## C7: the case transform -/

/-- C7: the schema-key-to-external-key case transform is idempotent
(`transform (transform k) = transform k` for every key string `k`), a key
that is entirely upper-case (it equals its own upper-casing, the very test
the source itself uses) is returned unchanged, and `myApiKeyValue` maps to
`MY_API_KEY_VALUE`. -/
theorem camelToScreamingSnake_spec (k : String) :
    camelToScreamingSnake (camelToScreamingSnake k) = camelToScreamingSnake k ∧
    (k.data = toUpperStr k.data → camelToScreamingSnake k = k) ∧
    camelToScreamingSnake "myApiKeyValue" = "MY_API_KEY_VALUE" := by
  refine ⟨?_, ?_, by decide⟩
  · by_cases h : k.data = toUpperStr k.data
    · have h1 : camelToScreamingSnake k = k := by
        unfold camelToScreamingSnake; rw [if_pos h]
      rw [h1]; exact h1
    · have h1 : camelToScreamingSnake k
          = String.mk (toUpperStr (stripLeadingUnderscore (insertUnderscores k.data))) := by
        unfold camelToScreamingSnake; rw [if_neg h]
      rw [h1]
      unfold camelToScreamingSnake
      rw [if_pos]
      exact (toUpperStr_idem _).symm
  · intro h
    unfold camelToScreamingSnake
    rw [if_pos h]

/-- Witness for C7: the transform leaves `MY_KEY` unchanged and sends
`myApiKeyValue` to `MY_API_KEY_VALUE`. -/
theorem camelToScreamingSnake_spec_witness :
    camelToScreamingSnake "MY_KEY" = "MY_KEY" ∧
    camelToScreamingSnake "myApiKeyValue" = "MY_API_KEY_VALUE" :=
  ⟨(camelToScreamingSnake_spec "MY_KEY").2.1 (by decide),
   (camelToScreamingSnake_spec "MY_KEY").2.2⟩

/-! ## C10: the read-tracking guard -/

theorem hasBeenRead_applyOp (st : EnvState) (op : EnvOp) (k : String) :
    k ∈ (applyOp st op).hasBeenRead ↔
      k ∈ st.hasBeenRead ∨ (∃ k', op = .get k' ∧ k = k') := by
  cases op with
  | get k' => simp [applyOp, envGet]; tauto
  | set k' v =>
    by_cases h : k' ∈ st.hasBeenRead <;> simp [applyOp, envSet, h]
  | del k' =>
    by_cases h : k' ∈ st.hasBeenRead <;> simp [applyOp, envDelete, h]
  | has k' => simp [applyOp]

theorem mem_hasBeenRead_runOps (ops : List EnvOp) (st : EnvState) (k : String) :
    k ∈ (runOps st ops).hasBeenRead ↔ k ∈ st.hasBeenRead ∨ EnvOp.get k ∈ ops := by
  induction ops generalizing st with
  | nil => simp [runOps]
  | cons op ops ih =>
    show k ∈ (runOps (applyOp st op) ops).hasBeenRead ↔ _
    rw [ih]
    rw [hasBeenRead_applyOp]
    constructor
    · rintro ((h | ⟨k', rfl, rfl⟩) | h)
      · exact Or.inl h
      · exact Or.inr (List.mem_cons_self _ _)
      · exact Or.inr (List.mem_cons_of_mem _ h)
    · rintro (h | h)
      · exact Or.inl (Or.inl h)
      · rcases List.mem_cons.mp h with h | h
        · exact Or.inl (Or.inr ⟨k, h.symm, rfl⟩)
        · exact Or.inr h

/-- C10: on an `Environment` instance, a key becomes write-protected
exactly through `get`: after any trace of calls containing `get k`
(whether or not `k` exists in the map), both `set k v` and `delete k`
throw `EnvironmentError`; and after any trace not containing `get k`
(`has k` included), both `set k v` and `delete k` succeed. -/
theorem environment_guard_spec (m : List (String × String)) (ops : List EnvOp)
    (k v : String) :
    (EnvOp.get k ∈ ops →
      envSet (runOps ⟨m, []⟩ ops) k v =
        .error ("Cannot set environment['" ++ k ++ "'], but the value has already been read.") ∧
      envDelete (runOps ⟨m, []⟩ ops) k =
        .error ("Cannot delete environment['" ++ k ++ "'], but the value has already been read.")) ∧
    (EnvOp.get k ∉ ops →
      (∃ st', envSet (runOps ⟨m, []⟩ ops) k v = .ok st') ∧
      (∃ st', envDelete (runOps ⟨m, []⟩ ops) k = .ok st')) := by
  have hm := mem_hasBeenRead_runOps ops ⟨m, []⟩ k
  constructor
  · intro hg
    have hr : k ∈ (runOps ⟨m, []⟩ ops).hasBeenRead := hm.mpr (Or.inr hg)
    exact ⟨by simp [envSet, hr], by simp [envDelete, hr]⟩
  · intro hg
    have hr : k ∉ (runOps ⟨m, []⟩ ops).hasBeenRead := by
      rw [hm]
      simpa using hg
    constructor
    · simp only [envSet, if_neg hr]
      exact ⟨_, rfl⟩
    · simp only [envDelete, if_neg hr]
      exact ⟨_, rfl⟩

/-- Witness for C10: after `get "A"` on an empty map, `set "A"` throws;
after only `has "B"`, `set "B"` succeeds. -/
theorem environment_guard_spec_witness :
    envSet (runOps ⟨[], []⟩ [EnvOp.get "A"]) "A" "x" =
      .error ("Cannot set environment['A'], but the value has already been read.") ∧
    (∃ st', envSet (runOps ⟨[], []⟩ [EnvOp.has "B"]) "B" "x" = .ok st') :=
  ⟨((environment_guard_spec [] [EnvOp.get "A"] "A" "x").1 (by decide)).1,
   ((environment_guard_spec [] [EnvOp.has "B"] "B" "x").2 (by decide)).1⟩

/-! ## Helper lemmas: scans without matches leave the text unchanged -/

theorem escapeDollars_id (l : List Char) (h : hasEscSeq l = false) :
    escapeDollars l = l := by
  induction l using escapeDollars.induct with
  | case1 rest ih => simp [hasEscSeq] at h
  | case2 c rest h2 ih =>
    rw [escapeDollars.eq_2 c rest h2]
    congr 1
    apply ih
    cases rest with
    | nil => rfl
    | cons d rest2 =>
      simp [hasEscSeq] at h ⊢
      exact h.2
  | case3 => rfl

theorem scanBraced_id (res : Res) :
    ∀ (fuel : Nat) (l : List Char) (st : ExpandSt),
      hasBracedTok l = false → l.length < fuel →
      scanBraced res fuel l st = .ok (l, st) := by
  intro fuel
  induction fuel with
  | zero => intro l st _ hlen; exact absurd hlen (Nat.not_lt_zero _)
  | succ fuel ih =>
    intro l st htok hlen
    cases l with
    | nil => rfl
    | cons c rest =>
      have hlen' : rest.length < fuel := by
        simp only [List.length_cons] at hlen
        omega
      by_cases hc : c = '$'
      · subst hc
        cases hm : matchBraced rest with
        | some p => simp [hasBracedTok, hm] at htok
        | none =>
          have ht2 : hasBracedTok rest = false := by
            simpa [hasBracedTok, hm] using htok
          simp [scanBraced, hm, ih rest st ht2 hlen']
      · have ht2 : hasBracedTok rest = false := by
          simpa [hasBracedTok, hc] using htok
        simp [scanBraced, hc, ih rest st ht2 hlen']

theorem scanBare_id (res : Res) :
    ∀ (fuel : Nat) (l : List Char) (st : ExpandSt),
      hasBareTok l = false → l.length < fuel →
      scanBare res fuel l st = .ok (l, st) := by
  intro fuel
  induction fuel with
  | zero => intro l st _ hlen; exact absurd hlen (Nat.not_lt_zero _)
  | succ fuel ih =>
    intro l st htok hlen
    cases l with
    | nil => rfl
    | cons c rest =>
      have hlen' : rest.length < fuel := by
        simp only [List.length_cons] at hlen
        omega
      by_cases hc : c = '$'
      · subst hc
        cases hm : matchIdent rest with
        | some p => simp [hasBareTok, hm] at htok
        | none =>
          have ht2 : hasBareTok rest = false := by
            simpa [hasBareTok, hm] using htok
          simp [scanBare, hm, ih rest st ht2 hlen']
      · have ht2 : hasBareTok rest = false := by
          simpa [hasBareTok, hc] using htok
        simp [scanBare, hc, ih rest st ht2 hlen']

theorem restoreEsc_id (l : List Char) (h : ESC ∉ l) : restoreEsc l = l := by
  unfold restoreEsc
  induction l with
  | nil => rfl
  | cons c rest ih =>
    simp only [List.mem_cons] at h
    push_neg at h
    have h1 : ¬ c = ESC := fun hcE => h.1 hcE.symm
    simp only [List.map_cons, if_neg h1]
    rw [ih h.2]

/-! ## C6: interpolation round-trip and escaping -/

/-- Counterexample to C6 as stated: the file value consisting of the single
character U+0000 contains no `$NAME`/`${NAME}` reference and no `\$`
escape, yet the resolver does not return it unchanged — the final
sentinel-restoration step rewrites it to a literal `$`. -/
theorem interpolation_roundtrip_cex :
    expandEnvMap [("A", String.mk [ESC])] [] ⟨.error, .envFirst⟩ = .ok [("A", "$")] ∧
    String.mk [ESC] ≠ "$" :=
  ⟨rfl, by decide⟩

/-- C6 (amended with the U+0000 exclusion the counterexample forces): a
file-sourced value with no braced or bare references, no `\$` escapes and
no U+0000 sentinel characters passes through `interpolateString`
unchanged, for every resolver; `$A` with file entry `A=1` resolves to `1`;
and `\$A` resolves to the literal `$A` without any lookup (the resolver
callback is universally quantified and never invoked). -/
theorem interpolation_roundtrip (l : List Char)
    (h1 : hasEscSeq l = false) (h2 : hasBracedTok l = false)
    (h3 : hasBareTok l = false) (h4 : ESC ∉ l) :
    (∀ (res : Res) (st : ExpandSt),
      interpolateString (String.mk l) res st = .ok (String.mk l, st)) ∧
    expandEnvMap [("B", "$A"), ("A", "1")] [] ⟨.error, .envFirst⟩
      = .ok [("B", "1"), ("A", "1")] ∧
    (∀ (res : Res) (st : ExpandSt),
      interpolateString "\\$A" res st = .ok ("$A", st)) := by
  refine ⟨?_, by rfl, ?_⟩
  · intro res st
    show (match scanBraced res ((escapeDollars (String.mk l).data).length + 1)
          (escapeDollars (String.mk l).data) st with
      | Except.error e => Except.error e
      | Except.ok (t2, st2) =>
        match scanBare res (t2.length + 1) t2 st2 with
        | Except.error e => Except.error e
        | Except.ok (t3, st3) => Except.ok (String.mk (restoreEsc t3), st3))
      = Except.ok (String.mk l, st)
    have hd : (String.mk l).data = l := rfl
    rw [hd, escapeDollars_id l h1,
        scanBraced_id res (l.length + 1) l st h2 (Nat.lt_succ_self _)]
    show (match scanBare res (l.length + 1) l st with
      | Except.error e => Except.error e
      | Except.ok (t3, st3) => Except.ok (String.mk (restoreEsc t3), st3))
      = Except.ok (String.mk l, st)
    rw [scanBare_id res (l.length + 1) l st h3 (Nat.lt_succ_self _)]
    show Except.ok (String.mk (restoreEsc l), st) = Except.ok (String.mk l, st)
    rw [restoreEsc_id l h4]
  · intro res st
    rfl

/-- Witness for C6: a reference-free value passes through unchanged. -/
theorem interpolation_roundtrip_witness :
    (∀ (res : Res) (st : ExpandSt),
      interpolateString "hello world" res st = .ok ("hello world", st)) ∧
    expandEnvMap [("B", "$A"), ("A", "1")] [] ⟨.error, .envFirst⟩
      = .ok [("B", "1"), ("A", "1")] ∧
    (∀ (res : Res) (st : ExpandSt),
      interpolateString "\\$A" res st = .ok ("$A", st)) :=
  interpolation_roundtrip "hello world".data (by decide) (by decide) (by decide)
    (by decide)

/-! ## C5: cycle detection -/

/-- C5: with interpolation enabled (default env-first lookup) and an
environment defining neither `A` nor `B`, the file map `A=$B`, `B=$A`
makes `load` fail with the cycle message naming `A -> B -> A`; and in
general, whenever `resolveKey` meets a key that is not memoised, exists in
the file, and is already on the `resolving` stack, it fails with the cycle
error naming the traversal path `cyclePath`. -/
theorem cycle_detection_spec :
    load [("A", .field stringField)] [("A", "$B"), ("B", "$A")]
        { interpolate := .bool true }
      = .error "Circular reference detected in .env: A -> B -> A" ∧
    (∀ (fuel : Nat) (fv env : List (String × String)) (opts : InterpOpts)
        (key : String) (st : ExpandSt),
      st.resolved.lookup key = none →
      containsKey fv key = true →
      st.resolving.contains key = true →
      resolveKey fv env opts (fuel + 1) key st =
        .error ("Circular reference detected in .env: " ++ cyclePath st.resolving key)) := by
  refine ⟨by rfl, ?_⟩
  intro fuel fv env opts key st hres hfile hstack
  have hmem : key ∈ st.resolving := by simpa using hstack
  simp [resolveKey, interpGo, hres, hfile, hmem]

/-- Witness for C5: a self-referential key already on the stack fails with
the path `K -> K`. -/
theorem cycle_detection_spec_witness :
    resolveKey [("K", "$K")] [] ⟨.error, .envFirst⟩ 1 "K" ⟨[], ["K"]⟩ =
      .error "Circular reference detected in .env: K -> K" :=
  cycle_detection_spec.2 0 [("K", "$K")] [] ⟨.error, .envFirst⟩ "K" ⟨[], ["K"]⟩
    rfl rfl rfl

/-! ## C1: environment values and re-interpolation -/

/-- C1 is violated by the code: with file `A=${B}` and environment
`B=$C`, `C=x`, the environment text `$C` substituted for the braced token
`${B}` is re-scanned by the subsequent bare-token pass, `C` is looked up,
and `A` resolves to `x` instead of the verbatim `$C`. The second conjunct
shows the contrasting bare-token case, where the substituted environment
value does come through verbatim. -/
theorem env_value_reinterpolated_bug :
    expandEnvMap [("A", "$\x7bB\x7d")] [("B", "$C"), ("C", "x")] ⟨.error, .envFirst⟩
      = .ok [("A", "x")] ∧
    expandEnvMap [("A", "$B")] [("B", "$C"), ("C", "x")] ⟨.error, .envFirst⟩
      = .ok [("A", "$C")] ∧
    ("x" : String) ≠ "$C" :=
  ⟨rfl, rfl, by decide⟩

/-! ## C3, C4, C9: the per-field lookup and missing-value cascade -/

/-- C3: when the external lookup key is absent from both sources, a field
resolves by exactly the cascade of the source: the default if present,
else `undefined` if optional, else `undefined` under the global
skip-missing option, else a `ConfigError` naming the external key. -/
theorem readField_missing_cascade (pfx : String) (env fv : List (String × String))
    (skip : Bool) (key : String) (f : Field)
    (henv : env.lookup (pfx ++ (f.envName.getD (camelToScreamingSnake key))) = none)
    (hfile : fv.lookup (pfx ++ (f.envName.getD (camelToScreamingSnake key))) = none) :
    (∀ d, f.defaultValue = some d → readField pfx env fv skip key f = .ok d) ∧
    (f.defaultValue = none → f.isOptional = true →
      readField pfx env fv skip key f = .ok .undef) ∧
    (f.defaultValue = none → f.isOptional = false → skip = true →
      readField pfx env fv skip key f = .ok .undef) ∧
    (f.defaultValue = none → f.isOptional = false → skip = false →
      readField pfx env fv skip key f =
        .error ("Config '" ++ (pfx ++ (f.envName.getD (camelToScreamingSnake key)))
          ++ "' is missing and has no default.")) := by
  refine ⟨?_, ?_, ?_, ?_⟩
  · intro d hd
    simp only [readField, henv, hfile, hd]
  · intro hd hopt
    simp only [readField, henv, hfile, hd, hopt]
    simp
  · intro hd hopt hskip
    simp only [readField, henv, hfile, hd, hopt, hskip]
    simp
  · intro hd hopt hskip
    simp only [readField, henv, hfile, hd, hopt, hskip]
    simp

/-- Witness for C3: the four branches of the cascade at concrete fields
(`key` maps to external key `KEY`, absent everywhere). -/
theorem readField_missing_cascade_witness :
    readField "" [] [] false "key" (stringField.default (.vStr "d")) = .ok (.vStr "d") ∧
    readField "" [] [] false "key" stringField.optional = .ok .undef ∧
    readField "" [] [] true "key" stringField = .ok .undef ∧
    readField "" [] [] false "key" stringField =
      .error "Config 'KEY' is missing and has no default." :=
  ⟨(readField_missing_cascade "" [] [] false "key" (stringField.default (.vStr "d"))
      rfl rfl).1 _ rfl,
   (readField_missing_cascade "" [] [] false "key" stringField.optional rfl rfl).2.1
      rfl rfl,
   (readField_missing_cascade "" [] [] true "key" stringField rfl rfl).2.2.1
      rfl rfl rfl,
   (readField_missing_cascade "" [] [] false "key" stringField rfl rfl).2.2.2
      rfl rfl rfl⟩

/-- C4: when the environment defines the external key, the field resolves
through the environment value alone — the right-hand side mentions no file
map, so the file value is ignored for every file map, schema entry and
option set. -/
theorem readField_env_wins (pfx : String) (env fv : List (String × String))
    (skip : Bool) (key : String) (f : Field) (v : String)
    (henv : env.lookup (pfx ++ (f.envName.getD (camelToScreamingSnake key))) = some v) :
    readField pfx env fv skip key f =
      match f.coerce v with
      | .ok w => .ok w
      | .error m =>
        .error ("Config '" ++ (pfx ++ (f.envName.getD (camelToScreamingSnake key)))
          ++ "' has value '" ++ v ++ "'. " ++ m) := by
  simp [readField, henv]

/-- Witness for C4: with `KEY` bound to `e` in the environment and `f` in
the file, the field reads `e`. -/
theorem readField_env_wins_witness :
    readField "" [("KEY", "e")] [("KEY", "f")] false "key" stringField =
      .ok (.vStr "e") :=
  readField_env_wins "" [("KEY", "e")] [("KEY", "f")] false "key" stringField "e" rfl

/-- C9: an environment value that is the empty string is present, not
missing — it is passed to the coercer and the default is never consulted;
and missing-value handling only applies when neither source yields a
string (a file value alone also goes to the coercer). -/
theorem readField_empty_env_value (pfx : String) (env fv : List (String × String))
    (skip : Bool) (key : String) (f : Field)
    (henv : env.lookup (pfx ++ (f.envName.getD (camelToScreamingSnake key))) = some "") :
    (readField pfx env fv skip key f =
      match f.coerce "" with
      | .ok w => .ok w
      | .error m =>
        .error ("Config '" ++ (pfx ++ (f.envName.getD (camelToScreamingSnake key)))
          ++ "' has value '" ++ "" ++ "'. " ++ m)) ∧
    (∀ (env' fv' : List (String × String)) (r : String),
      env'.lookup (pfx ++ (f.envName.getD (camelToScreamingSnake key))) = none →
      fv'.lookup (pfx ++ (f.envName.getD (camelToScreamingSnake key))) = some r →
      readField pfx env' fv' skip key f =
        match f.coerce r with
        | .ok w => .ok w
        | .error m =>
          .error ("Config '" ++ (pfx ++ (f.envName.getD (camelToScreamingSnake key)))
            ++ "' has value '" ++ r ++ "'. " ++ m)) := by
  constructor
  · simp [readField, henv]
  · intro env' fv' r henv' hfile'
    simp [readField, henv', hfile']

/-- Witness for C9: the empty environment value is coerced (default
unused); a file-only value is coerced too. -/
theorem readField_empty_env_value_witness :
    readField "" [("KEY", "")] [] false "key" (stringField.default (.vStr "d")) =
      .ok (.vStr "") ∧
    readField "" [] [("KEY", "r")] false "key" stringField = .ok (.vStr "r") :=
  ⟨(readField_empty_env_value "" [("KEY", "")] [] false "key"
      (stringField.default (.vStr "d")) rfl).1,
   (readField_empty_env_value "" [("KEY", "")] [] false "key" stringField rfl).2
      [] [("KEY", "r")] "r" rfl rfl⟩

/-! ## C2: atomic failure on the first error in pass order -/

/-- Counterexample to C2 as stated: in the schema
`[a : Field, b : EphemeralField]` with empty sources both entries fail as
missing, `a` before `b` in insertion order, yet `load` throws `b`'s error,
because the ephemeral pass runs before the stored-field pass. -/
theorem load_first_error_cex :
    load [("a", .field stringField), ("b", .ephemeral stringField)] []
        { env := [] } =
      .error "Config 'B' is missing and has no default." ∧
    readField "" [] [] false "a" stringField =
      .error "Config 'A' is missing and has no default." ∧
    ("Config 'B' is missing and has no default." : String) ≠
      "Config 'A' is missing and has no default." :=
  ⟨rfl, rfl, by decide⟩

theorem loadEphemerals_error_eq (pfx : String) (env fv : List (String × String))
    (skip : Bool) :
    ∀ (schema : List (String × SchemaEntry)) (e : String),
      firstEphError pfx env fv skip schema = some e →
      loadEphemerals pfx env fv skip schema = .error e := by
  intro schema
  induction schema with
  | nil => intro e h; simp [firstEphError] at h
  | cons entry rest ih =>
    intro e h
    obtain ⟨k, se⟩ := entry
    cases se with
    | ephemeral f =>
      cases hr : readField pfx env fv skip k f with
      | error e' =>
        simp [firstEphError, hr] at h
        subst h
        simp [loadEphemerals, hr]
      | ok v =>
        simp only [firstEphError, hr] at h
        simp [loadEphemerals, hr, ih e h]
    | field f =>
      simp only [firstEphError] at h
      simp only [loadEphemerals]
      exact ih e h
    | derived d =>
      simp only [firstEphError] at h
      simp only [loadEphemerals]
      exact ih e h

theorem loadEphemerals_ok_of_none (pfx : String) (env fv : List (String × String))
    (skip : Bool) :
    ∀ (schema : List (String × SchemaEntry)),
      firstEphError pfx env fv skip schema = none →
      ∃ l, loadEphemerals pfx env fv skip schema = .ok l := by
  intro schema
  induction schema with
  | nil => intro _; exact ⟨[], rfl⟩
  | cons entry rest ih =>
    intro h
    obtain ⟨k, se⟩ := entry
    cases se with
    | ephemeral f =>
      cases hr : readField pfx env fv skip k f with
      | error e' => simp [firstEphError, hr] at h
      | ok v =>
        simp only [firstEphError, hr] at h
        obtain ⟨l, hl⟩ := ih h
        exact ⟨(k, v) :: l, by simp [loadEphemerals, hr, hl]⟩
    | field f =>
      simp only [firstEphError] at h
      obtain ⟨l, hl⟩ := ih h
      exact ⟨l, by simpa [loadEphemerals] using hl⟩
    | derived d =>
      simp only [firstEphError] at h
      obtain ⟨l, hl⟩ := ih h
      exact ⟨l, by simpa [loadEphemerals] using hl⟩

theorem loadRegulars_error_eq (pfx : String) (env fv : List (String × String))
    (skip : Bool) :
    ∀ (schema : List (String × SchemaEntry)) (e : String),
      firstFieldError pfx env fv skip schema = some e →
      loadRegulars pfx env fv skip schema = .error e := by
  intro schema
  induction schema with
  | nil => intro e h; simp [firstFieldError] at h
  | cons entry rest ih =>
    intro e h
    obtain ⟨k, se⟩ := entry
    cases se with
    | field f =>
      cases hr : readField pfx env fv skip k f with
      | error e' =>
        simp [firstFieldError, hr] at h
        subst h
        simp [loadRegulars, hr]
      | ok v =>
        simp only [firstFieldError, hr] at h
        simp [loadRegulars, hr, ih e h]
    | ephemeral f =>
      simp only [firstFieldError] at h
      simp only [loadRegulars]
      exact ih e h
    | derived d =>
      simp only [firstFieldError] at h
      simp only [loadRegulars]
      exact ih e h

theorem loadDeriveds_error_eq (ctx : List (String × Value)) :
    ∀ (ds : List (String × (List (String × Value) → Except String Value))) (e : String),
      firstDerivedError ctx ds = some e → loadDeriveds ctx ds = .error e := by
  intro ds
  induction ds with
  | nil => intro e h; simp [firstDerivedError] at h
  | cons entry rest ih =>
    intro e h
    obtain ⟨k, d⟩ := entry
    cases hd : d ctx with
    | error m =>
      simp [firstDerivedError, hd] at h
      subst h
      simp [loadDeriveds, hd]
    | ok v =>
      simp only [firstDerivedError, hd] at h
      simp [loadDeriveds, hd, ih e h]

theorem load_eq_fileStage_loadCore (schema : List (String × SchemaEntry))
    (rawFv : List (String × String)) (o : LoadOptions)
    (fv : List (String × String)) (hfs : loadFileStage rawFv o = .ok fv) :
    load schema rawFv o = loadCore o.pfx o.env fv o.skipMissing schema := by
  have h0 : load schema rawFv o =
      (match loadFileStage rawFv o with
        | Except.error e => Except.error e
        | Except.ok fw => loadCore o.pfx o.env fw o.skipMissing schema) := rfl
  rw [h0, hfs]

/-- C2 (amended to the pass order the counterexample forces): for every
schema, raw file map and options whose file stage succeeds, if any entry
fails to resolve, `load` throws on the first error encountered in pass
order — every ephemeral entry (in schema insertion order) before every
stored `Field` entry (in insertion order), with derived computations last,
a derived failure surfacing only when both read passes succeed — and
returns no record at all, aggregating nothing (the result type carries a
single error). -/
theorem load_first_error_spec (schema : List (String × SchemaEntry))
    (rawFv : List (String × String)) (o : LoadOptions)
    (fv : List (String × String))
    (hfs : loadFileStage rawFv o = .ok fv) :
    (∀ e, firstReadError o.pfx o.env fv o.skipMissing schema = some e →
      load schema rawFv o = .error e) ∧
    (∀ ephs regs e,
      loadEphemerals o.pfx o.env fv o.skipMissing schema = .ok ephs →
      loadRegulars o.pfx o.env fv o.skipMissing schema = .ok regs →
      firstDerivedError (regs ++ ephs) (derivedEntries schema) = some e →
      load schema rawFv o = .error e) := by
  rw [load_eq_fileStage_loadCore schema rawFv o fv hfs]
  constructor
  · intro e h
    unfold firstReadError at h
    cases h1 : firstEphError o.pfx o.env fv o.skipMissing schema with
    | some e1 =>
      rw [h1] at h
      have he : e1 = e := by simpa using h
      subst he
      unfold loadCore
      rw [loadEphemerals_error_eq o.pfx o.env fv o.skipMissing schema e1 h1]
    | none =>
      rw [h1] at h
      obtain ⟨l, hle⟩ := loadEphemerals_ok_of_none o.pfx o.env fv o.skipMissing schema h1
      unfold loadCore
      rw [hle, loadRegulars_error_eq o.pfx o.env fv o.skipMissing schema e h]
  · intro ephs regs e h1 h2 h3
    unfold loadCore
    simp only [h1, h2, loadDeriveds_error_eq (regs ++ ephs) (derivedEntries schema) e h3]

/-- Witness for C2: with interpolation enabled, the counterexample schema
throws the ephemeral `b`'s error (the first in pass order); and a schema
whose reads all succeed but whose derived entry throws fails with the
wrapped derived error. -/
theorem load_first_error_spec_witness :
    load [("a", .field stringField), ("b", .ephemeral stringField)] []
        { env := [], interpolate := .bool true }
      = .error "Config 'B' is missing and has no default." ∧
    load [("d", .derived (fun _ => .error "boom")), ("a", .field stringField)] []
        { env := [("A", "x")] }
      = .error "Derived config 'd' failed to compute. boom" :=
  ⟨(load_first_error_spec [("a", .field stringField), ("b", .ephemeral stringField)]
      [] { env := [], interpolate := .bool true } [] rfl).1
      "Config 'B' is missing and has no default." rfl,
   (load_first_error_spec [("d", .derived (fun _ => .error "boom")),
      ("a", .field stringField)] [] { env := [("A", "x")] } [] rfl).2
      [] [("a", Value.vStr "x")] "Derived config 'd' failed to compute. boom"
      rfl rfl rfl⟩

/-! ## C8: the shape of a successful output record -/

theorem loadRegulars_ok_keys (pfx : String) (env fv : List (String × String))
    (skip : Bool) :
    ∀ (schema : List (String × SchemaEntry)) (regs : List (String × Value)),
      loadRegulars pfx env fv skip schema = .ok regs →
      regs.map Prod.fst = fieldKeys schema := by
  intro schema
  induction schema with
  | nil =>
    intro regs h
    simp only [loadRegulars] at h
    have : regs = [] := by simpa using h.symm
    subst this
    rfl
  | cons entry rest ih =>
    intro regs h
    obtain ⟨k, se⟩ := entry
    cases se with
    | field f =>
      cases hr : readField pfx env fv skip k f with
      | error e => simp [loadRegulars, hr] at h
      | ok v =>
        cases ht : loadRegulars pfx env fv skip rest with
        | error e => simp [loadRegulars, hr, ht] at h
        | ok tail =>
          simp only [loadRegulars, hr, ht] at h
          have : regs = (k, v) :: tail := by simpa using h.symm
          subst this
          simp [fieldKeys, ih tail ht]
    | ephemeral f =>
      simp only [loadRegulars] at h
      simp only [fieldKeys]
      exact ih regs h
    | derived d =>
      simp only [loadRegulars] at h
      simp only [fieldKeys]
      exact ih regs h

theorem loadDeriveds_ok_keys (ctx : List (String × Value)) :
    ∀ (ds : List (String × (List (String × Value) → Except String Value)))
      (out : List (String × Value)),
      loadDeriveds ctx ds = .ok out → out.map Prod.fst = ds.map Prod.fst := by
  intro ds
  induction ds with
  | nil =>
    intro out h
    simp only [loadDeriveds] at h
    have : out = [] := by simpa using h.symm
    subst this
    rfl
  | cons entry rest ih =>
    intro out h
    obtain ⟨k, d⟩ := entry
    cases hd : d ctx with
    | error m => simp [loadDeriveds, hd] at h
    | ok v =>
      cases ht : loadDeriveds ctx rest with
      | error e => simp [loadDeriveds, hd, ht] at h
      | ok tail =>
        simp only [loadDeriveds, hd, ht] at h
        have : out = (k, v) :: tail := by simpa using h.symm
        subst this
        simp [ih tail ht]

theorem derivedEntries_keys :
    ∀ (schema : List (String × SchemaEntry)),
      (derivedEntries schema).map Prod.fst = derivedKeys schema := by
  intro schema
  induction schema with
  | nil => rfl
  | cons entry rest ih =>
    obtain ⟨k, se⟩ := entry
    cases se with
    | field f => simpa [derivedEntries, derivedKeys] using ih
    | ephemeral f => simpa [derivedEntries, derivedKeys] using ih
    | derived d => simp [derivedEntries, derivedKeys, ih]

theorem loadCore_ok_keys (pfx : String) (env fv : List (String × String))
    (skip : Bool) (schema : List (String × SchemaEntry)) (r : List (String × Value))
    (h : loadCore pfx env fv skip schema = .ok r) :
    r.map Prod.fst = fieldKeys schema ++ derivedKeys schema := by
  unfold loadCore at h
  cases h1 : loadEphemerals pfx env fv skip schema with
  | error e => simp [h1] at h
  | ok ephs =>
    simp only [h1] at h
    cases h2 : loadRegulars pfx env fv skip schema with
    | error e => simp [h2] at h
    | ok regs =>
      simp only [h2] at h
      cases h3 : loadDeriveds (regs ++ ephs) (derivedEntries schema) with
      | error e => simp [h3] at h
      | ok ders =>
        simp only [h3] at h
        have hr : r = regs ++ ders := by simpa using h.symm
        subst hr
        rw [List.map_append, loadRegulars_ok_keys pfx env fv skip schema regs h2,
            loadDeriveds_ok_keys (regs ++ ephs) (derivedEntries schema) ders h3,
            derivedEntries_keys schema]

/-- C8: every successful `load` returns a record whose keys are exactly
the stored `Field` keys followed by the derived keys of the schema; a key
that is neither a stored nor a derived key — in particular any purely
ephemeral key — never appears in the output. -/
theorem load_output_keys (schema : List (String × SchemaEntry))
    (rawFv : List (String × String)) (o : LoadOptions) (r : List (String × Value))
    (h : load schema rawFv o = .ok r) :
    r.map Prod.fst = fieldKeys schema ++ derivedKeys schema ∧
    (∀ k, k ∈ ephemeralKeys schema → k ∉ fieldKeys schema → k ∉ derivedKeys schema →
      k ∉ r.map Prod.fst) := by
  have hcore : ∃ fv, loadCore o.pfx o.env fv o.skipMissing schema = .ok r := by
    simp only [load] at h
    cases hfs : (if interpEnabled o.interpolate then
        expandEnvMap rawFv o.env
          { missing := interpMissingOf o.interpolate, lookup := interpLookupOf o.interpolate }
      else Except.ok rawFv) with
    | error e => simp only [hfs] at h; exact absurd h (by simp)
    | ok fv => simp only [hfs] at h; exact ⟨fv, h⟩
  obtain ⟨fv, hcore⟩ := hcore
  have hkeys := loadCore_ok_keys o.pfx o.env fv o.skipMissing schema r hcore
  refine ⟨hkeys, ?_⟩
  intro k _ hkf hkd
  rw [hkeys]
  simp only [List.mem_append]
  rintro (hk | hk)
  · exact hkf hk
  · exact hkd hk

/-- Witness for C8: a schema with one ephemeral, one stored and one
derived entry loads to a record whose keys are exactly the stored key and
the derived key. -/
theorem load_output_keys_witness :
    ([("name", Value.vStr "n"), ("url", Value.vStr "u")].map Prod.fst
      = fieldKeys
          [("pgHost", SchemaEntry.ephemeral stringField),
           ("name", SchemaEntry.field stringField),
           ("url", SchemaEntry.derived (fun _ => .ok (.vStr "u")))]
        ++ derivedKeys
          [("pgHost", SchemaEntry.ephemeral stringField),
           ("name", SchemaEntry.field stringField),
           ("url", SchemaEntry.derived (fun _ => .ok (.vStr "u")))]) ∧
    (∀ k,
      k ∈ ephemeralKeys
          [("pgHost", SchemaEntry.ephemeral stringField),
           ("name", SchemaEntry.field stringField),
           ("url", SchemaEntry.derived (fun _ => .ok (.vStr "u")))] →
      k ∉ fieldKeys
          [("pgHost", SchemaEntry.ephemeral stringField),
           ("name", SchemaEntry.field stringField),
           ("url", SchemaEntry.derived (fun _ => .ok (.vStr "u")))] →
      k ∉ derivedKeys
          [("pgHost", SchemaEntry.ephemeral stringField),
           ("name", SchemaEntry.field stringField),
           ("url", SchemaEntry.derived (fun _ => .ok (.vStr "u")))] →
      k ∉ [("name", Value.vStr "n"), ("url", Value.vStr "u")].map Prod.fst) :=
  load_output_keys
    [("pgHost", SchemaEntry.ephemeral stringField),
     ("name", SchemaEntry.field stringField),
     ("url", SchemaEntry.derived (fun _ => .ok (.vStr "u")))]
    [] { env := [("PG_HOST", "h"), ("NAME", "n")] }
    [("name", Value.vStr "n"), ("url", Value.vStr "u")] rfl

end Configlette
